import Mathlib

/-!
Verification of the drive-time company map viewer (`streamlit_app.py`).

The script is modelled as pure Lean functions:
* coordinates are rationals (the script only compares them for equality,
  never computes with them, except for the map center which no claim uses);
* the `st.cache_data` store of `get_isochrone` is an association list from
  `(longitude, latitude, seconds)` to the returned geometry; per Streamlit
  semantics an argument whose name starts with `_` (here `_client`) is
  excluded from the cache key;
* the network is an oracle `net : IsoKey → Except String π` (the geometry
  type `π` is a parameter);
* the two render loops are a fold that threads the cache, records which
  keys triggered a network call, counts the `time.sleep(1)` insertions,
  and stops at the first provider error;
* Streamlit session state (`project_sites`, `competitor_visibility`,
  `all_competitors`) is a record of ordered association lists, mutated
  exactly where the script mutates it.
-/

set_option autoImplicit false

namespace ConcreteMap

/-- Cache key of `get_isochrone`: `(longitude, latitude, duration-seconds)`. -/
abbrev IsoKey : Type := Rat × Rat × Nat

/-- The `openrouteservice.Client` object, determined by the API key string. -/
structure Client where
  apiKey : String
deriving DecidableEq, Repr

/-- One row of the "Companies" sheet: `Company Location` (identifier),
`Company Name` (group), `Latitude`, `Longitude`. -/
structure CompanyRow where
  location : String
  name : String
  lat : Rat
  lon : Rat
deriving DecidableEq, Repr

/-- One row of the "Projects" sheet: `Project Name`, `Latitude`, `Longitude`. -/
structure ProjectRow where
  name : String
  lat : Rat
  lon : Rat
deriving DecidableEq, Repr

/-- The value stored in `st.session_state.project_sites` per project name. -/
structure ProjectData where
  lat : Rat
  lon : Rat
  visible : Bool
deriving DecidableEq, Repr

/-- First-match lookup in an association list keyed by `IsoKey`
(the behaviour of the `st.cache_data` store for one function). -/
def lookupKey {π : Type} (k : IsoKey) : List (IsoKey × π) → Option π
  | [] => none
  | (k', p) :: rest => if k' = k then some p else lookupKey k rest

/-- The cache key that Streamlit computes for
`get_isochrone(_client, lon, lat, seconds)`: the leading underscore of
`_client` excludes it from hashing, so the key is the triple alone. -/
def cacheKey (_client : Client) (lon lat : Rat) (seconds : Nat) : IsoKey :=
  (lon, lat, seconds)

/-- `get_isochrone` under `@st.cache_data`: on a hit the cached geometry is
returned with no network call; on a miss the network oracle is consulted and
a successful result is appended to the cache.  The returned `Bool` records
whether a network call was performed.  A provider error is propagated and
the cache is not extended. -/
def get_isochrone {π : Type} (net : IsoKey → Except String π)
    (cache : List (IsoKey × π)) (_client : Client) (lon lat : Rat)
    (seconds : Nat) : Except String (π × List (IsoKey × π) × Bool) :=
  let k := cacheKey _client lon lat seconds
  match lookupKey k cache with
  | some p => Except.ok (p, cache, false)
  | none =>
    match net k with
    | Except.ok p => Except.ok (p, cache ++ [(k, p)], true)
    | Except.error e => Except.error e

theorem lookupKey_append_some {π : Type} {k : IsoKey} {p : π}
    {c₁ : List (IsoKey × π)} (c₂ : List (IsoKey × π))
    (h : lookupKey k c₁ = some p) : lookupKey k (c₁ ++ c₂) = some p := by
  induction c₁ with
  | nil => simp [lookupKey] at h
  | cons hd tl ih =>
    obtain ⟨k', q⟩ := hd
    by_cases hk : k' = k
    · simpa [lookupKey, hk] using h
    · simp only [lookupKey, if_neg hk] at h ⊢
      exact ih h

theorem lookupKey_append_none {π : Type} {k : IsoKey}
    {c₁ : List (IsoKey × π)} (c₂ : List (IsoKey × π))
    (h : lookupKey k c₁ = none) :
    lookupKey k (c₁ ++ c₂) = lookupKey k c₂ := by
  induction c₁ with
  | nil => simp
  | cons hd tl ih =>
    obtain ⟨k', q⟩ := hd
    by_cases hk : k' = k
    · simp [lookupKey, hk] at h
    · simp only [lookupKey, if_neg hk] at h ⊢
      exact ih h

theorem lookupKey_singleton {π : Type} (k k' : IsoKey) (p : π) :
    lookupKey k [(k', p)] = if k' = k then some p else none := by
  by_cases h : k' = k <;> simp [lookupKey, h]

/-- Claim C1: a successful `get_isochrone` call leaves its result in the
cache under the exact triple `(lon, lat, seconds)`; an identical repeated
call returns that cached polygon with no network call and no cache change;
and every other key (in particular a key with a different duration) keeps
exactly the lookup result it had before, so a new duration adds a separate
entry without removing or altering existing ones. -/
theorem isochrone_cache_per_triple {π : Type}
    (net : IsoKey → Except String π) (cache : List (IsoKey × π))
    (client : Client) (lon lat : Rat) (seconds : Nat)
    (p : π) (c' : List (IsoKey × π)) (b : Bool)
    (h : get_isochrone net cache client lon lat seconds =
      Except.ok (p, c', b)) :
    lookupKey (lon, lat, seconds) c' = some p ∧
    get_isochrone net c' client lon lat seconds =
      Except.ok (p, c', false) ∧
    ∀ k : IsoKey, k ≠ (lon, lat, seconds) →
      lookupKey k c' = lookupKey k cache := by
  unfold get_isochrone cacheKey at h ⊢
  cases hl : lookupKey (lon, lat, seconds) cache with
  | some q =>
    simp only [hl] at h
    rw [Except.ok.injEq, Prod.mk.injEq, Prod.mk.injEq] at h
    obtain ⟨hp, hc, hb⟩ := h
    subst hp
    subst hc
    refine ⟨hl, ?_, ?_⟩
    · simp [hl]
    · intro k _
      rfl
  | none =>
    simp only [hl] at h
    cases hn : net (lon, lat, seconds) with
    | ok q =>
      simp only [hn] at h
      rw [Except.ok.injEq, Prod.mk.injEq, Prod.mk.injEq] at h
      obtain ⟨hp, hc, hb⟩ := h
      subst hc
      subst hp
      have hhit : lookupKey (lon, lat, seconds)
          (cache ++ [((lon, lat, seconds), q)]) = some q := by
        rw [lookupKey_append_none _ hl, lookupKey_singleton]
        simp
      refine ⟨hhit, by simp [hhit], ?_⟩
      intro k hk
      cases hk2 : lookupKey k cache with
      | some r => exact lookupKey_append_some _ hk2
      | none =>
        rw [lookupKey_append_none _ hk2, lookupKey_singleton,
          if_neg (fun hh => hk hh.symm)]
    | error e => simp [hn] at h

/-- Witness for `isochrone_cache_per_triple` at a concrete miss-then-hit run. -/
theorem isochrone_cache_per_triple_witness :
    lookupKey ((1 : Rat), (2 : Rat), 600)
        [(((1 : Rat), (2 : Rat), 600), (5 : Nat))] = some 5 ∧
    get_isochrone (fun _ => Except.ok (5 : Nat))
        [(((1 : Rat), (2 : Rat), 600), (5 : Nat))] ⟨"key"⟩ 1 2 600 =
      Except.ok (5, [(((1 : Rat), (2 : Rat), 600), (5 : Nat))], false) ∧
    ∀ k : IsoKey, k ≠ ((1 : Rat), (2 : Rat), 600) →
      lookupKey k [(((1 : Rat), (2 : Rat), 600), (5 : Nat))] =
        lookupKey k ([] : List (IsoKey × Nat)) := by
  exact isochrone_cache_per_triple (fun _ => Except.ok 5) [] ⟨"key"⟩ 1 2 600
    5 [(((1 : Rat), (2 : Rat), 600), 5)] true rfl

/-- Claim C3 counterexample: the client object is NOT part of the cache key.
`cacheKey` ignores its `_client` argument (Streamlit excludes
underscore-prefixed arguments from hashing), so after a session with client
`"keyA"` has populated the cache, a session with a different client `"keyB"`
and the same `(lon, lat, seconds)` gets a cache hit (`false` = no network
call) on the very same entry — there is no credential-separated entry and
no false cache miss. -/
theorem client_excluded_counterexample :
    cacheKey ⟨"keyA"⟩ 1 2 600 = cacheKey ⟨"keyB"⟩ 1 2 600 ∧
    get_isochrone (fun _ => Except.ok (7 : Nat))
        [(((1 : Rat), (2 : Rat), 600), (7 : Nat))] ⟨"keyB"⟩ 1 2 600 =
      Except.ok (7, [(((1 : Rat), (2 : Rat), 600), (7 : Nat))], false) :=
  ⟨rfl, rfl⟩

/-- Claim C3 amended: the underscore-prefixed client argument is excluded
from the cache key, so `get_isochrone` behaves identically for any two
client objects: sessions with different credentials share cache entries for
the same coordinates and duration. -/
theorem get_isochrone_client_independent {π : Type}
    (net : IsoKey → Except String π) (cache : List (IsoKey × π))
    (c₁ c₂ : Client) (lon lat : Rat) (seconds : Nat) :
    cacheKey c₁ lon lat seconds = cacheKey c₂ lon lat seconds ∧
    get_isochrone net cache c₁ lon lat seconds =
      get_isochrone net cache c₂ lon lat seconds :=
  ⟨rfl, rfl⟩

/-!
The two render loops (project sites, then company rows).  Each visible
entry is processed in order: `get_isochrone` is called, its polygon is
added to the map, and `time.sleep(1)` runs — also when the call was a
cache hit.  A provider error propagates out of the loop at once, skipping
the remaining entries; the entries already cached stay cached.
-/

/-- State threaded through the render loops: the `st.cache_data` store,
the keys that caused an actual network call (in order), and how many
`time.sleep(1)` calls ran. -/
structure PassState (π : Type) where
  cache : List (IsoKey × π)
  netCalls : List IsoKey
  sleeps : Nat
deriving DecidableEq, Repr

/-- Key of one loop entry `(lon, lat)` at the selected duration. -/
def entryKey (seconds : Nat) (e : Rat × Rat) : IsoKey :=
  (e.1, e.2, seconds)

/-- One iteration of a render loop on a visible entry: call
`get_isochrone`, then sleep.  On a provider error the loop body raises. -/
def processEntry {π : Type} (net : IsoKey → Except String π)
    (client : Client) (seconds : Nat) (st : PassState π) (e : Rat × Rat) :
    Except String (PassState π) :=
  match get_isochrone net st.cache client e.1 e.2 seconds with
  | Except.error msg => Except.error msg
  | Except.ok (_, cache', wasNet) =>
    Except.ok
      { cache := cache'
        netCalls := st.netCalls ++ if wasNet then [entryKey seconds e] else []
        sleeps := st.sleeps + 1 }

/-- A render loop over the visible entries, stopping at the first provider
error and returning the state reached so far together with the error. -/
def runLoop {π : Type} (net : IsoKey → Except String π) (client : Client)
    (seconds : Nat) : List (Rat × Rat) → PassState π →
    PassState π × Option String
  | [], st => (st, none)
  | e :: rest, st =>
    match processEntry net client seconds st e with
    | Except.error msg => (st, some msg)
    | Except.ok st' => runLoop net client seconds rest st'

theorem lookupKey_processEntry_mono {π : Type}
    (net : IsoKey → Except String π) (client : Client) (seconds : Nat)
    (st st' : PassState π) (e : Rat × Rat) (k : IsoKey) (p : π)
    (hrun : processEntry net client seconds st e = Except.ok st')
    (h : lookupKey k st.cache = some p) : lookupKey k st'.cache = some p := by
  unfold processEntry at hrun
  unfold get_isochrone at hrun
  cases hl : lookupKey (cacheKey client e.1 e.2 seconds) st.cache with
  | some q =>
    simp only [hl] at hrun
    rw [Except.ok.injEq] at hrun
    rw [← hrun]
    exact h
  | none =>
    simp only [hl] at hrun
    cases hn : net (cacheKey client e.1 e.2 seconds) with
    | ok q =>
      simp only [hn] at hrun
      rw [Except.ok.injEq] at hrun
      rw [← hrun]
      exact lookupKey_append_some _ h
    | error msg => simp [hn] at hrun

theorem lookupKey_runLoop_mono {π : Type}
    (net : IsoKey → Except String π) (client : Client) (seconds : Nat)
    (entries : List (Rat × Rat)) (st : PassState π) (k : IsoKey) (p : π)
    (h : lookupKey k st.cache = some p) :
    lookupKey k (runLoop net client seconds entries st).1.cache = some p := by
  induction entries generalizing st with
  | nil => exact h
  | cons e rest ih =>
    unfold runLoop
    cases hrun : processEntry net client seconds st e with
    | error msg => exact h
    | ok st' =>
      exact ih st'
        (lookupKey_processEntry_mono net client seconds st st' e k p hrun h)

theorem runLoop_error_from_net {π : Type}
    (net : IsoKey → Except String π) (client : Client) (seconds : Nat)
    (entries : List (Rat × Rat)) (st : PassState π) (msg : String)
    (h : (runLoop net client seconds entries st).2 = some msg) :
    ∃ e ∈ entries, net (entryKey seconds e) = Except.error msg := by
  induction entries generalizing st with
  | nil => simp [runLoop] at h
  | cons e rest ih =>
    unfold runLoop at h
    cases hrun : processEntry net client seconds st e with
    | error m =>
      simp only [hrun] at h
      rw [Option.some.injEq] at h
      subst h
      refine ⟨e, List.mem_cons_self e rest, ?_⟩
      unfold processEntry get_isochrone at hrun
      cases hl : lookupKey (cacheKey client e.1 e.2 seconds) st.cache with
      | some q => simp [hl] at hrun
      | none =>
        simp only [hl] at hrun
        cases hn : net (cacheKey client e.1 e.2 seconds) with
        | ok q => simp [hn] at hrun
        | error m' =>
          simp only [hn, Except.error.injEq] at hrun
          subst hrun
          exact hn
    | ok st' =>
      simp only [hrun] at h
      obtain ⟨e', he', hnet⟩ := ih st' h
      exact ⟨e', List.mem_cons_of_mem e he', hnet⟩

theorem processEntry_sleeps {π : Type} (net : IsoKey → Except String π)
    (client : Client) (seconds : Nat) (st st' : PassState π) (e : Rat × Rat)
    (hrun : processEntry net client seconds st e = Except.ok st') :
    st'.sleeps = st.sleeps + 1 := by
  unfold processEntry at hrun
  cases hg : get_isochrone net st.cache client e.1 e.2 seconds with
  | error msg => simp [hg] at hrun
  | ok r =>
    obtain ⟨p, cache', wasNet⟩ := r
    simp only [hg] at hrun
    rw [Except.ok.injEq] at hrun
    rw [← hrun]

/-- On an error-free run, one `time.sleep(1)` fires per processed entry —
whether or not the entry needed a network call. -/
theorem runLoop_sleeps {π : Type} (net : IsoKey → Except String π)
    (client : Client) (seconds : Nat) (entries : List (Rat × Rat))
    (st : PassState π)
    (h : (runLoop net client seconds entries st).2 = none) :
    (runLoop net client seconds entries st).1.sleeps =
      st.sleeps + entries.length := by
  induction entries generalizing st with
  | nil => simp [runLoop]
  | cons e rest ih =>
    unfold runLoop at h ⊢
    cases hrun : processEntry net client seconds st e with
    | error msg => simp [hrun] at h
    | ok st' =>
      simp only [hrun] at h ⊢
      rw [ih st' h, processEntry_sleeps net client seconds st st' e hrun,
        List.length_cons]
      omega

/-- A run whose entries are all cached already: no network call is made,
the cache is untouched, and each entry still costs one sleep. -/
theorem runLoop_warm {π : Type} (net : IsoKey → Except String π)
    (client : Client) (seconds : Nat) (entries : List (Rat × Rat))
    (st : PassState π)
    (hhit : ∀ e ∈ entries, ∃ p, lookupKey (entryKey seconds e) st.cache = some p) :
    runLoop net client seconds entries st =
      (⟨st.cache, st.netCalls, st.sleeps + entries.length⟩, none) := by
  induction entries generalizing st with
  | nil => simp [runLoop]
  | cons e rest ih =>
    obtain ⟨p, hp⟩ := hhit e (List.mem_cons_self e rest)
    have hproc : processEntry net client seconds st e =
        Except.ok ⟨st.cache, st.netCalls, st.sleeps + 1⟩ := by
      unfold processEntry get_isochrone
      simp only [cacheKey, entryKey] at hp ⊢
      simp [hp]
    unfold runLoop
    simp only [hproc]
    have := ih ⟨st.cache, st.netCalls, st.sleeps + 1⟩
      (fun e' he' => hhit e' (List.mem_cons_of_mem e he'))
    rw [this, List.length_cons]
    have harith : st.sleeps + 1 + rest.length = st.sleeps + (rest.length + 1) := by
      omega
    rw [harith]

/-- A run on entries none of whose keys are cached ("cold" for these
entries) with pairwise-distinct keys and a working provider: it succeeds,
issues exactly one network call per entry (in entry order), sleeps once per
entry, and leaves every entry's key cached. -/
theorem runLoop_cold {π : Type} (net : IsoKey → Except String π)
    (client : Client) (seconds : Nat) (entries : List (Rat × Rat))
    (st : PassState π)
    (hnodup : (entries.map (entryKey seconds)).Nodup)
    (hmiss : ∀ e ∈ entries, lookupKey (entryKey seconds e) st.cache = none)
    (hnet : ∀ e ∈ entries, ∃ p, net (entryKey seconds e) = Except.ok p) :
    (runLoop net client seconds entries st).2 = none ∧
    (runLoop net client seconds entries st).1.netCalls =
      st.netCalls ++ entries.map (entryKey seconds) ∧
    (runLoop net client seconds entries st).1.sleeps =
      st.sleeps + entries.length ∧
    ∀ e ∈ entries, ∃ p,
      lookupKey (entryKey seconds e) (runLoop net client seconds entries st).1.cache = some p := by
  induction entries generalizing st with
  | nil => simp [runLoop]
  | cons e rest ih =>
    obtain ⟨p, hp⟩ := hnet e (List.mem_cons_self e rest)
    have hm := hmiss e (List.mem_cons_self e rest)
    have hproc : processEntry net client seconds st e =
        Except.ok ⟨st.cache ++ [(entryKey seconds e, p)],
          st.netCalls ++ [entryKey seconds e], st.sleeps + 1⟩ := by
      unfold processEntry get_isochrone
      simp only [cacheKey, entryKey] at hm hp ⊢
      simp [hm, hp]
    have hkey_notmem : entryKey seconds e ∉ rest.map (entryKey seconds) := by
      rw [List.map_cons] at hnodup
      exact (List.nodup_cons.mp hnodup).1
    have hrest_nodup : (rest.map (entryKey seconds)).Nodup := by
      rw [List.map_cons] at hnodup
      exact (List.nodup_cons.mp hnodup).2
    have hrest_miss : ∀ e' ∈ rest,
        lookupKey (entryKey seconds e')
          (st.cache ++ [(entryKey seconds e, p)]) = none := by
      intro e' he'
      rw [lookupKey_append_none _ (hmiss e' (List.mem_cons_of_mem e he')),
        lookupKey_singleton]
      rw [if_neg]
      intro hcontra
      exact hkey_notmem (hcontra ▸ List.mem_map_of_mem (entryKey seconds) he')
    obtain ⟨ih1, ih2, ih3, ih4⟩ :=
      ih ⟨st.cache ++ [(entryKey seconds e, p)],
        st.netCalls ++ [entryKey seconds e], st.sleeps + 1⟩ hrest_nodup
        hrest_miss (fun e' he' => hnet e' (List.mem_cons_of_mem e he'))
    have hruneq : runLoop net client seconds (e :: rest) st =
        runLoop net client seconds rest
          ⟨st.cache ++ [(entryKey seconds e, p)],
            st.netCalls ++ [entryKey seconds e], st.sleeps + 1⟩ := by
      conv_lhs => unfold runLoop
      simp [hproc]
    rw [hruneq]
    refine ⟨ih1, ?_, ?_, ?_⟩
    · rw [ih2, List.map_cons, List.append_assoc, List.singleton_append]
    · rw [ih3, List.length_cons]
      show st.sleeps + 1 + rest.length = st.sleeps + (rest.length + 1)
      omega
    · intro e' he'
      rcases List.mem_cons.mp he' with he' | he'
      · subst he'
        have hhit : lookupKey (entryKey seconds e')
            (st.cache ++ [(entryKey seconds e', p)]) = some p := by
          rw [lookupKey_append_none _ hm, lookupKey_singleton]
          simp
        exact ⟨p, lookupKey_runLoop_mono net client seconds rest _ _ p hhit⟩
      · exact ih4 e' he'

/-- First-match lookup in a string-keyed association list (a Python dict
preserving insertion order). -/
def lookupStr {β : Type} (k : String) : List (String × β) → Option β
  | [] => none
  | (k', v) :: rest => if k' = k then some v else lookupStr k rest

/-- The `(lon, lat)` arguments passed to `get_isochrone` by the project
loop, in iteration order: visible sites only. -/
def visibleProjectEntries (sites : List (String × ProjectData)) :
    List (Rat × Rat) :=
  (sites.filter fun s => s.2.visible).map fun s => (s.2.lon, s.2.lat)

/-- The `(lon, lat)` arguments passed to `get_isochrone` by the company
loop, in row order: rows whose `Company Location` is toggled visible. -/
def visibleCompanyEntries (vis : List (String × Bool))
    (companies : List CompanyRow) : List (Rat × Rat) :=
  (companies.filter fun r => (lookupStr r.location vis).getD false).map
    fun r => (r.lon, r.lat)

/-- One render pass: the project-site loop followed by the competitor
loop, starting from the given cache with no network calls or sleeps yet. -/
def renderPass {π : Type} (net : IsoKey → Except String π) (client : Client)
    (seconds : Nat) (sites : List (String × ProjectData))
    (vis : List (String × Bool)) (companies : List CompanyRow)
    (cache : List (IsoKey × π)) : PassState π × Option String :=
  runLoop net client seconds
    (visibleProjectEntries sites ++ visibleCompanyEntries vis companies)
    ⟨cache, [], 0⟩

/-- Claim C4 counterexample: a render pass over one visible project site
whose isochrone is already cached performs `time.sleep(1)` once but makes
zero network calls, so the number of delay insertions is not the number of
successful network calls. -/
theorem delay_not_network_counterexample :
    ((renderPass (fun _ => Except.ok (0 : Nat)) ⟨"k"⟩ 600
        [("P", ⟨2, 1, true⟩)] [] []
        [(((1 : Rat), (2 : Rat), 600), (0 : Nat))]).1.sleeps = 1 ∧
      (renderPass (fun _ => Except.ok (0 : Nat)) ⟨"k"⟩ 600
        [("P", ⟨2, 1, true⟩)] [] []
        [(((1 : Rat), (2 : Rat), 600), (0 : Nat))]).1.netCalls.length = 0) ∧
    ¬((renderPass (fun _ => Except.ok (0 : Nat)) ⟨"k"⟩ 600
        [("P", ⟨2, 1, true⟩)] [] []
        [(((1 : Rat), (2 : Rat), 600), (0 : Nat))]).1.sleeps =
      (renderPass (fun _ => Except.ok (0 : Nat)) ⟨"k"⟩ 600
        [("P", ⟨2, 1, true⟩)] [] []
        [(((1 : Rat), (2 : Rat), 600), (0 : Nat))]).1.netCalls.length) :=
  ⟨⟨rfl, rfl⟩, by decide⟩

/-- Claim C4 amended: `time.sleep(1)` runs once after every successful
`get_isochrone` invocation, whether it hit the cache or went to the
network, so on an error-free render pass the number of delay insertions
equals the number of visible entries processed (not the number of network
calls). -/
theorem delay_per_processed_entry {π : Type}
    (net : IsoKey → Except String π) (client : Client) (seconds : Nat)
    (sites : List (String × ProjectData)) (vis : List (String × Bool))
    (companies : List CompanyRow) (cache : List (IsoKey × π))
    (h : (renderPass net client seconds sites vis companies cache).2 = none) :
    (renderPass net client seconds sites vis companies cache).1.sleeps =
      (visibleProjectEntries sites ++ visibleCompanyEntries vis companies).length := by
  unfold renderPass at h ⊢
  have := runLoop_sleeps net client seconds
    (visibleProjectEntries sites ++ visibleCompanyEntries vis companies)
    ⟨cache, [], 0⟩ h
  simpa using this

/-- Witness for `delay_per_processed_entry`: a pass over one cached (hence
network-free) visible site still sleeps exactly once. -/
theorem delay_per_processed_entry_witness :
    (renderPass (fun _ => Except.ok (0 : Nat)) ⟨"k"⟩ 600
        [("P", ⟨2, 1, true⟩)] [] []
        [(((1 : Rat), (2 : Rat), 600), (0 : Nat))]).1.sleeps =
      (visibleProjectEntries [("P", ⟨2, 1, true⟩)] ++
        visibleCompanyEntries [] []).length :=
  delay_per_processed_entry (fun _ => Except.ok (0 : Nat)) ⟨"k"⟩ 600
    [("P", ⟨2, 1, true⟩)] [] [] [(((1 : Rat), (2 : Rat), 600), (0 : Nat))] rfl

/-- Claim C2 counterexample: two visible company rows at the same
coordinates and no project sites, on a cold cache: `N + M = 2` but only one
network call is made because the second row hits the entry just cached. -/
theorem render_call_count_counterexample :
    (renderPass (fun _ => Except.ok (0 : Nat)) ⟨"k"⟩ 600 []
        [("A1", true), ("A2", true)]
        [⟨"A1", "Acme", 2, 1⟩, ⟨"A2", "Acme", 2, 1⟩] []).2 = none ∧
    (renderPass (fun _ => Except.ok (0 : Nat)) ⟨"k"⟩ 600 []
        [("A1", true), ("A2", true)]
        [⟨"A1", "Acme", 2, 1⟩, ⟨"A2", "Acme", 2, 1⟩] []).1.netCalls.length = 1 ∧
    ¬((renderPass (fun _ => Except.ok (0 : Nat)) ⟨"k"⟩ 600 []
        [("A1", true), ("A2", true)]
        [⟨"A1", "Acme", 2, 1⟩, ⟨"A2", "Acme", 2, 1⟩] []).1.netCalls.length =
      ([⟨"A1", "Acme", (2 : Rat), (1 : Rat)⟩,
        ⟨"A2", "Acme", (2 : Rat), (1 : Rat)⟩] : List CompanyRow).length +
      (([] : List (String × ProjectData)).filter fun s => s.2.visible).length) :=
  ⟨rfl, rfl, by decide⟩

/-- Claim C2 amended: with every company row visible, pairwise-distinct
cache keys among the visible entries, and a working provider, a render pass
on a cold cache performs exactly `M + N` network calls (`M` visible project
sites, `N` company rows), and repeating the pass on the resulting cache
performs zero network calls. -/
theorem render_pass_call_counts {π : Type}
    (net : IsoKey → Except String π) (client : Client) (seconds : Nat)
    (sites : List (String × ProjectData)) (vis : List (String × Bool))
    (companies : List CompanyRow)
    (hvis : ∀ r ∈ companies, (lookupStr r.location vis).getD false = true)
    (hnodup : ((visibleProjectEntries sites ++
      visibleCompanyEntries vis companies).map (entryKey seconds)).Nodup)
    (hnet : ∀ e ∈ visibleProjectEntries sites ++
      visibleCompanyEntries vis companies,
      ∃ p, net (entryKey seconds e) = Except.ok p) :
    (renderPass net client seconds sites vis companies
      ([] : List (IsoKey × π))).2 = none ∧
    (renderPass net client seconds sites vis companies
      ([] : List (IsoKey × π))).1.netCalls.length =
      (sites.filter fun s => s.2.visible).length + companies.length ∧
    (renderPass net client seconds sites vis companies
      (renderPass net client seconds sites vis companies
        ([] : List (IsoKey × π))).1.cache).1.netCalls = [] := by
  have hmiss : ∀ e ∈ visibleProjectEntries sites ++
      visibleCompanyEntries vis companies,
      lookupKey (entryKey seconds e) ([] : List (IsoKey × π)) = none := by
    intro e _
    rfl
  obtain ⟨h1, h2, h3, h4⟩ := runLoop_cold net client seconds
    (visibleProjectEntries sites ++ visibleCompanyEntries vis companies)
    ⟨[], [], 0⟩ hnodup hmiss hnet
  have hcompanies : visibleCompanyEntries vis companies =
      companies.map fun r => (r.lon, r.lat) := by
    unfold visibleCompanyEntries
    rw [List.filter_eq_self.mpr hvis]
  refine ⟨h1, ?_, ?_⟩
  · unfold renderPass
    rw [h2]
    simp [hcompanies, visibleProjectEntries]
  · unfold renderPass
    have hwarm := runLoop_warm net client seconds
      (visibleProjectEntries sites ++ visibleCompanyEntries vis companies)
      ⟨(runLoop net client seconds
          (visibleProjectEntries sites ++ visibleCompanyEntries vis companies)
          ⟨[], [], 0⟩).1.cache, [], 0⟩ (by simpa using h4)
    rw [hwarm]

/-- Witness for `render_pass_call_counts`: one visible project site and one
company row at distinct coordinates give 2 cold-cache network calls and a
network-free repeat pass. -/
theorem render_pass_call_counts_witness :
    (renderPass (fun _ => Except.ok (0 : Nat)) ⟨"k"⟩ 600
      [("P", ⟨2, 1, true⟩)] [("A1", true)] [⟨"A1", "Acme", 4, 3⟩]
      ([] : List (IsoKey × Nat))).2 = none ∧
    (renderPass (fun _ => Except.ok (0 : Nat)) ⟨"k"⟩ 600
      [("P", ⟨2, 1, true⟩)] [("A1", true)] [⟨"A1", "Acme", 4, 3⟩]
      ([] : List (IsoKey × Nat))).1.netCalls.length =
      ([("P", (⟨2, 1, true⟩ : ProjectData))].filter fun s => s.2.visible).length +
      ([⟨"A1", "Acme", 4, 3⟩] : List CompanyRow).length ∧
    (renderPass (fun _ => Except.ok (0 : Nat)) ⟨"k"⟩ 600
      [("P", ⟨2, 1, true⟩)] [("A1", true)] [⟨"A1", "Acme", 4, 3⟩]
      (renderPass (fun _ => Except.ok (0 : Nat)) ⟨"k"⟩ 600
        [("P", ⟨2, 1, true⟩)] [("A1", true)] [⟨"A1", "Acme", 4, 3⟩]
        ([] : List (IsoKey × Nat))).1.cache).1.netCalls = [] :=
  render_pass_call_counts (fun _ => Except.ok (0 : Nat)) ⟨"k"⟩ 600
    [("P", ⟨2, 1, true⟩)] [("A1", true)] [⟨"A1", "Acme", 4, 3⟩]
    (by decide) (by decide) (fun e _ => ⟨0, rfl⟩)

/-- Claim C8: an isochrone entry cached before a render pass is still
cached, unchanged, after the pass — also when the pass stops early because
the provider failed — and any error the pass reports is exactly the
provider's error for one of the visible entries. -/
theorem retrieval_error_preserves_cache {π : Type}
    (net : IsoKey → Except String π) (client : Client) (seconds : Nat)
    (sites : List (String × ProjectData)) (vis : List (String × Bool))
    (companies : List CompanyRow) (cache : List (IsoKey × π))
    (k : IsoKey) (p : π) (hcached : lookupKey k cache = some p) :
    lookupKey k
      (renderPass net client seconds sites vis companies cache).1.cache = some p ∧
    ∀ msg, (renderPass net client seconds sites vis companies cache).2 = some msg →
      ∃ e ∈ visibleProjectEntries sites ++ visibleCompanyEntries vis companies,
        net (entryKey seconds e) = Except.error msg := by
  unfold renderPass
  constructor
  · exact lookupKey_runLoop_mono net client seconds
      (visibleProjectEntries sites ++ visibleCompanyEntries vis companies)
      ⟨cache, [], 0⟩ k p hcached
  · intro msg hmsg
    exact runLoop_error_from_net net client seconds
      (visibleProjectEntries sites ++ visibleCompanyEntries vis companies)
      ⟨cache, [], 0⟩ msg hmsg

/-- Witness for `retrieval_error_preserves_cache`: the provider fails on a
visible site, the pass surfaces that provider error, and an entry cached
earlier survives untouched. -/
theorem retrieval_error_preserves_cache_witness :
    lookupKey ((3 : Rat), (4 : Rat), 600)
      (renderPass
        (fun k => if k = ((1 : Rat), (2 : Rat), 600)
          then Except.error "quota exceeded" else Except.ok (0 : Nat))
        ⟨"k"⟩ 600 [("P", ⟨2, 1, true⟩)] [] []
        [(((3 : Rat), (4 : Rat), 600), (9 : Nat))]).1.cache = some 9 ∧
    ∀ msg, (renderPass
        (fun k => if k = ((1 : Rat), (2 : Rat), 600)
          then Except.error "quota exceeded" else Except.ok (0 : Nat))
        ⟨"k"⟩ 600 [("P", ⟨2, 1, true⟩)] [] []
        [(((3 : Rat), (4 : Rat), 600), (9 : Nat))]).2 = some msg →
      ∃ e ∈ visibleProjectEntries [("P", ⟨2, 1, true⟩)] ++
          visibleCompanyEntries [] [],
        (fun k => if k = ((1 : Rat), (2 : Rat), 600)
          then Except.error "quota exceeded" else Except.ok (0 : Nat))
          (entryKey 600 e) = Except.error msg :=
  retrieval_error_preserves_cache
    (fun k => if k = ((1 : Rat), (2 : Rat), 600)
      then Except.error "quota exceeded" else Except.ok (0 : Nat))
    ⟨"k"⟩ 600 [("P", ⟨2, 1, true⟩)] [] []
    [(((3 : Rat), (4 : Rat), 600), (9 : Nat))]
    ((3 : Rat), (4 : Rat), 600) 9 (by decide)

/-!
Session state.  `st.session_state.project_sites` is a dict populated from
the "Projects" sheet only when it is empty; `competitor_visibility` is a
dict extended by `setdefault(cname, True)` for every company row;
`all_competitors` is a set of company identifiers.  The project checkboxes
rewrite each site's `visible` flag; no control writes
`competitor_visibility`.
-/

/-- Python dict assignment `d[k] = v` on an ordered association list:
update in place when the key exists, append otherwise. -/
def dictInsert (s : List (String × ProjectData)) (k : String)
    (v : ProjectData) : List (String × ProjectData) :=
  if k ∈ s.map Prod.fst then s.map fun p => if p.1 = k then (k, v) else p
  else s ++ [(k, v)]

/-- The loop that fills `project_sites` from the "Projects" rows: each row
is stored under its `Project Name` with `visible: True`. -/
def populateProjectSites (rows : List ProjectRow) :
    List (String × ProjectData) :=
  rows.foldl (fun s r => dictInsert s r.name ⟨r.lat, r.lon, true⟩) []

/-- `if not st.session_state.project_sites:` — the store is filled from
the uploaded file only when it is empty. -/
def initProjectSites (store : List (String × ProjectData))
    (rows : List ProjectRow) : List (String × ProjectData) :=
  if store.isEmpty then populateProjectSites rows else store

theorem lookupStr_mem {β : Type} {k : String} {v : β}
    {s : List (String × β)} (h : lookupStr k s = some v) : (k, v) ∈ s := by
  induction s with
  | nil => simp [lookupStr] at h
  | cons hd tl ih =>
    obtain ⟨k', v'⟩ := hd
    by_cases hk : k' = k
    · subst hk
      have hvv : some v' = some v := by simpa [lookupStr] using h
      rw [Option.some.injEq] at hvv
      subst hvv
      exact List.mem_cons_self _ _
    · simp only [lookupStr, if_neg hk] at h
      exact List.mem_cons_of_mem _ (ih h)

theorem dictInsert_mem {s : List (String × ProjectData)} {k : String}
    {v : ProjectData} {p : String × ProjectData} (h : p ∈ dictInsert s k v) :
    p ∈ s ∨ p = (k, v) := by
  unfold dictInsert at h
  by_cases hc : k ∈ s.map Prod.fst
  · rw [if_pos hc] at h
    obtain ⟨q, hq, hqe⟩ := List.mem_map.mp h
    by_cases hq1 : q.1 = k
    · right
      rw [if_pos hq1] at hqe
      exact hqe.symm
    · left
      rw [if_neg hq1] at hqe
      exact hqe ▸ hq
  · rw [if_neg hc] at h
    rcases List.mem_append.mp h with h | h
    · exact Or.inl h
    · exact Or.inr (List.mem_singleton.mp h)

theorem dictInsert_keys {s : List (String × ProjectData)} (k : String)
    (v : ProjectData) {k' : String} (h : k' ∈ s.map Prod.fst) :
    k' ∈ (dictInsert s k v).map Prod.fst := by
  unfold dictInsert
  by_cases hc : k ∈ s.map Prod.fst
  · rw [if_pos hc, List.map_map]
    have : s.map (Prod.fst ∘ fun p => if p.1 = k then (k, v) else p) =
        s.map Prod.fst := by
      refine List.map_congr_left ?_
      intro p _
      by_cases hp : p.1 = k
      · simp [hp]
      · simp [hp]
    rw [this]
    exact h
  · rw [if_neg hc, List.map_append]
    exact List.mem_append_left _ h

theorem lookupStr_isSome_iff {β : Type} (k : String) (s : List (String × β)) :
    (lookupStr k s).isSome = true ↔ k ∈ s.map Prod.fst := by
  induction s with
  | nil => simp [lookupStr]
  | cons hd tl ih =>
    obtain ⟨k', v'⟩ := hd
    by_cases hk : k' = k
    · subst hk
      simp [lookupStr]
    · simp only [lookupStr, if_neg hk, List.map_cons, List.mem_cons]
      rw [ih]
      constructor
      · exact Or.inr
      · rintro (h | h)
        · exact absurd h.symm hk
        · exact h

theorem dictInsert_self_key (s : List (String × ProjectData)) (k : String)
    (v : ProjectData) : k ∈ (dictInsert s k v).map Prod.fst := by
  unfold dictInsert
  by_cases hc : k ∈ s.map Prod.fst
  · rw [if_pos hc]
    obtain ⟨q, hq, hqe⟩ := List.mem_map.mp hc
    refine List.mem_map.mpr ⟨if q.1 = k then (k, v) else q, List.mem_map_of_mem _ hq, ?_⟩
    rw [if_pos hqe]
  · rw [if_neg hc, List.map_append]
    exact List.mem_append_right _ (by simp)

theorem populateProjectSites_visible (rows : List ProjectRow) :
    ∀ p ∈ populateProjectSites rows, p.2.visible = true := by
  unfold populateProjectSites
  suffices hgen : ∀ (s : List (String × ProjectData)),
      (∀ p ∈ s, p.2.visible = true) →
      ∀ p ∈ rows.foldl (fun s r => dictInsert s r.name ⟨r.lat, r.lon, true⟩) s,
        p.2.visible = true by
    exact hgen [] (by simp)
  induction rows with
  | nil => intro s hs; simpa using hs
  | cons r rest ih =>
    intro s hs
    simp only [List.foldl_cons]
    refine ih _ ?_
    intro p hp
    rcases dictInsert_mem hp with hp | hp
    · exact hs p hp
    · rw [hp]

theorem populateProjectSites_covers (rows : List ProjectRow) :
    ∀ r ∈ rows, r.name ∈ (populateProjectSites rows).map Prod.fst := by
  unfold populateProjectSites
  suffices hgen : ∀ (s : List (String × ProjectData)) (k : String),
      k ∈ s.map Prod.fst ∨ (∃ r ∈ rows, r.name = k) →
      k ∈ (rows.foldl (fun s r => dictInsert s r.name ⟨r.lat, r.lon, true⟩) s).map Prod.fst by
    intro r hr
    exact hgen [] r.name (Or.inr ⟨r, hr, rfl⟩)
  induction rows with
  | nil =>
    intro s k h
    rcases h with h | ⟨r, hr, _⟩
    · simpa using h
    · simp at hr
  | cons r rest ih =>
    intro s k h
    simp only [List.foldl_cons]
    refine ih _ k ?_
    rcases h with h | ⟨r', hr', hk⟩
    · exact Or.inl (dictInsert_keys _ _ h)
    · rcases List.mem_cons.mp hr' with hr' | hr'
      · subst hr'
        subst hk
        exact Or.inl (dictInsert_self_key s r'.name _)
      · exact Or.inr ⟨r', hr', hk⟩

/-- Claim C10: once `project_sites` is nonempty, re-running the load with
any file's project rows leaves the stored sites — names, coordinates and
visibility flags — exactly as they were (the new rows are ignored); and
from an empty store every project row of the file is stored under its name
with `visible = true`. -/
theorem project_sites_populated_once (store : List (String × ProjectData))
    (rows rows₂ : List ProjectRow) (h : store ≠ []) :
    initProjectSites store rows₂ = store ∧
    ∀ r ∈ rows, ∃ d : ProjectData,
      lookupStr r.name (initProjectSites [] rows) = some d ∧
      d.visible = true := by
  constructor
  · unfold initProjectSites
    cases store with
    | nil => exact absurd rfl h
    | cons hd tl => rfl
  · intro r hr
    have hcov := populateProjectSites_covers rows r hr
    have hsome : (lookupStr r.name (populateProjectSites rows)).isSome = true :=
      (lookupStr_isSome_iff _ _).mpr hcov
    obtain ⟨d, hd⟩ := Option.isSome_iff_exists.mp hsome
    refine ⟨d, ?_, ?_⟩
    · unfold initProjectSites
      simpa using hd
    · exact populateProjectSites_visible rows (r.name, d) (lookupStr_mem hd)

/-- Witness for `project_sites_populated_once`: a nonempty store survives a
second upload unchanged, and a fresh store maps the row's name to a visible
site. -/
theorem project_sites_populated_once_witness :
    initProjectSites [("Old", ⟨1, 2, false⟩)] [⟨"New", 3, 4⟩] =
      [("Old", ⟨1, 2, false⟩)] ∧
    ∀ r ∈ ([⟨"P1", 5, 6⟩] : List ProjectRow), ∃ d : ProjectData,
      lookupStr r.name (initProjectSites [] [⟨"P1", 5, 6⟩]) = some d ∧
      d.visible = true :=
  project_sites_populated_once [("Old", ⟨1, 2, false⟩)] [⟨"P1", 5, 6⟩]
    [⟨"New", 3, 4⟩] (by decide)

/-- `st.session_state.competitor_visibility.setdefault(cname, True)` for
every company row, in row order. -/
def initCompetitorVisibility (vis : List (String × Bool))
    (rows : List CompanyRow) : List (String × Bool) :=
  rows.foldl
    (fun v r => if (lookupStr r.location v).isSome then v
      else v ++ [(r.location, true)]) vis

/-- The visibility store after any sequence of file loads in a session:
it starts empty and the only code that writes it is the `setdefault` loop. -/
def visAfterLoads (loads : List (List CompanyRow)) : List (String × Bool) :=
  loads.foldl initCompetitorVisibility []

theorem lookupStr_append_some {β : Type} {k : String} {v : β}
    {s₁ : List (String × β)} (s₂ : List (String × β))
    (h : lookupStr k s₁ = some v) : lookupStr k (s₁ ++ s₂) = some v := by
  induction s₁ with
  | nil => simp [lookupStr] at h
  | cons hd tl ih =>
    obtain ⟨k', v'⟩ := hd
    by_cases hk : k' = k
    · simpa [lookupStr, hk] using h
    · simp only [List.cons_append, lookupStr, if_neg hk] at h ⊢
      exact ih h

theorem initCompetitorVisibility_all_true {vis : List (String × Bool)}
    (rows : List CompanyRow) (h : ∀ p ∈ vis, p.2 = true) :
    ∀ p ∈ initCompetitorVisibility vis rows, p.2 = true := by
  unfold initCompetitorVisibility
  induction rows generalizing vis with
  | nil => simpa using h
  | cons r rest ih =>
    simp only [List.foldl_cons]
    refine ih ?_
    by_cases hs : (lookupStr r.location vis).isSome
    · rw [if_pos hs]
      exact h
    · rw [if_neg hs]
      intro p hp
      rcases List.mem_append.mp hp with hp | hp
      · exact h p hp
      · rw [List.mem_singleton.mp hp]

theorem initCompetitorVisibility_mono {vis : List (String × Bool)}
    (rows : List CompanyRow) {k : String} {b : Bool}
    (h : lookupStr k vis = some b) :
    lookupStr k (initCompetitorVisibility vis rows) = some b := by
  unfold initCompetitorVisibility
  induction rows generalizing vis with
  | nil => simpa using h
  | cons r rest ih =>
    simp only [List.foldl_cons]
    refine ih ?_
    by_cases hs : (lookupStr r.location vis).isSome
    · rw [if_pos hs]
      exact h
    · rw [if_neg hs]
      exact lookupStr_append_some _ h

theorem lookupStr_append_none {β : Type} {k : String}
    {s₁ : List (String × β)} (s₂ : List (String × β))
    (h : lookupStr k s₁ = none) :
    lookupStr k (s₁ ++ s₂) = lookupStr k s₂ := by
  induction s₁ with
  | nil => simp
  | cons hd tl ih =>
    obtain ⟨k', v'⟩ := hd
    by_cases hk : k' = k
    · simp [lookupStr, hk] at h
    · simp only [List.cons_append, lookupStr, if_neg hk] at h ⊢
      exact ih h

theorem lookupStr_singleton_str {β : Type} (k k' : String) (v : β) :
    lookupStr k [(k', v)] = if k' = k then some v else none := by
  by_cases h : k' = k <;> simp [lookupStr, h]

theorem initCompetitorVisibility_covers (vis : List (String × Bool))
    (rows : List CompanyRow) :
    ∀ r ∈ rows,
      (lookupStr r.location (initCompetitorVisibility vis rows)).isSome = true := by
  induction rows generalizing vis with
  | nil => simp
  | cons r rest ih =>
    intro r' hr'
    have hstep : initCompetitorVisibility vis (r :: rest) =
        initCompetitorVisibility
          (if (lookupStr r.location vis).isSome then vis
            else vis ++ [(r.location, true)]) rest := by
      unfold initCompetitorVisibility
      simp [List.foldl_cons]
    rcases List.mem_cons.mp hr' with hr' | hr'
    · subst hr'
      rw [hstep]
      by_cases hs : (lookupStr r'.location vis).isSome
      · rw [if_pos hs]
        obtain ⟨b, hb⟩ := Option.isSome_iff_exists.mp hs
        rw [initCompetitorVisibility_mono rest hb]
        rfl
      · rw [if_neg hs]
        have hself : lookupStr r'.location (vis ++ [(r'.location, true)]) =
            some true := by
          cases hl : lookupStr r'.location vis with
          | some b => exact absurd (by rw [hl]; rfl) hs
          | none =>
            have := lookupStr_append_none (β := Bool)
              [(r'.location, true)] hl
            rw [this, lookupStr_singleton_str]
            simp
        rw [initCompetitorVisibility_mono rest hself]
        rfl
    · rw [hstep]
      exact ih _ r' hr'

/-- Claim C9: after any sequence of loads, every entry of the competitor
visibility store is `true` (it is initialized to `true` per discovered
identifier and no control ever writes `false`), so the competitor loop of
the next render pass processes every company row: the entries passed to
`get_isochrone` are exactly the rows' `(longitude, latitude)` pairs in row
order. -/
theorem companies_always_rendered (loads : List (List CompanyRow))
    (rows : List CompanyRow) :
    (∀ p ∈ visAfterLoads loads, p.2 = true) ∧
    visibleCompanyEntries (initCompetitorVisibility (visAfterLoads loads) rows)
      rows = rows.map fun r => (r.lon, r.lat) := by
  have hall : ∀ p ∈ visAfterLoads loads, p.2 = true := by
    unfold visAfterLoads
    suffices hgen : ∀ (v : List (String × Bool)), (∀ p ∈ v, p.2 = true) →
        ∀ p ∈ loads.foldl initCompetitorVisibility v, p.2 = true by
      exact hgen [] (by simp)
    induction loads with
    | nil => intro v hv; simpa using hv
    | cons l rest ih =>
      intro v hv
      rw [List.foldl_cons]
      exact ih _ (initCompetitorVisibility_all_true l hv)
  refine ⟨hall, ?_⟩
  have hall₂ : ∀ p ∈ initCompetitorVisibility (visAfterLoads loads) rows,
      p.2 = true := initCompetitorVisibility_all_true rows hall
  have hcond : ∀ r ∈ rows,
      (lookupStr r.location
        (initCompetitorVisibility (visAfterLoads loads) rows)).getD false = true := by
    intro r hr
    have hsome := initCompetitorVisibility_covers (visAfterLoads loads) rows r hr
    obtain ⟨b, hb⟩ := Option.isSome_iff_exists.mp hsome
    have hbt : b = true := hall₂ (r.location, b) (lookupStr_mem hb)
    rw [hb, hbt]
    rfl
  unfold visibleCompanyEntries
  rw [List.filter_eq_self.mpr hcond]

/-- Witness for `companies_always_rendered`: one earlier load, then a file
with two company rows — both rows are passed to the retriever. -/
theorem companies_always_rendered_witness :
    (∀ p ∈ visAfterLoads [[⟨"A1", "Acme", 2, 1⟩]], p.2 = true) ∧
    visibleCompanyEntries
      (initCompetitorVisibility (visAfterLoads [[⟨"A1", "Acme", 2, 1⟩]])
        [⟨"A1", "Acme", 2, 1⟩, ⟨"B1", "Beta", 4, 3⟩])
      [⟨"A1", "Acme", 2, 1⟩, ⟨"B1", "Beta", 4, 3⟩] =
      ([⟨"A1", "Acme", 2, 1⟩, ⟨"B1", "Beta", 4, 3⟩] : List CompanyRow).map
        fun r => (r.lon, r.lat) :=
  companies_always_rendered [[⟨"A1", "Acme", 2, 1⟩]]
    [⟨"A1", "Acme", 2, 1⟩, ⟨"B1", "Beta", 4, 3⟩]

/-!
Input validation and the top-level script.  The load block asserts, in
order, that the "Companies" sheet has the four required columns and the
"Projects" sheet the three required ones; the first failing assert's
message is surfaced by `st.error` and `st.stop()` halts the run before any
state initialization, retrieval or rendering.
-/

/-- Required columns of the "Companies" sheet, in assert order. -/
def requiredCompanyCols : List String :=
  ["Company Location", "Latitude", "Longitude", "Company Name"]

/-- Required columns of the "Projects" sheet, in assert order. -/
def requiredProjectCols : List String :=
  ["Project Name", "Latitude", "Longitude"]

/-- The first required column (in assert order) absent from `cols`. -/
def firstMissing (cols : List String) : List String → Option String
  | [] => none
  | c :: rest => if c ∈ cols then firstMissing cols rest else some c

/-- An uploaded workbook: the column sets of the two sheets and their
typed rows. -/
structure ExcelFile where
  companiesCols : List String
  projectsCols : List String
  companies : List CompanyRow
  projects : List ProjectRow
deriving DecidableEq, Repr

/-- The validation asserts: the message of the first failing assert, if
any (`'<sheet>' sheet must include '<col>' column.`). -/
def validateColumns (f : ExcelFile) : Option String :=
  match firstMissing f.companiesCols requiredCompanyCols with
  | some c =>
    some ("\x27Companies\x27 sheet must include \x27" ++ c ++ "\x27 column.")
  | none =>
    match firstMissing f.projectsCols requiredProjectCols with
    | some c =>
      some ("\x27Projects\x27 sheet must include \x27" ++ c ++ "\x27 column.")
    | none => none

/-- `st.session_state.all_competitors.add(cname)` for every row (modelled
as an ordered list without duplicates). -/
def addCompetitors (s : List String) (rows : List CompanyRow) : List String :=
  rows.foldl (fun acc r => if r.location ∈ acc then acc else acc ++ [r.location]) s

/-- The sidebar checkboxes: each project's `visible` flag is overwritten by
the checkbox value for that name (the user's choice, given the current
value as default). -/
def applyToggles (toggles : String → Bool → Bool)
    (sites : List (String × ProjectData)) : List (String × ProjectData) :=
  sites.map fun s => (s.1, ⟨s.2.lat, s.2.lon, toggles s.1 s.2.visible⟩)

/-- Where a run of the script stops. -/
inductive AppOutcome where
  | configWarning
  | awaitingFile
  | loadError (msg : String)
  | retrievalError (msg : String)
  | rendered
deriving DecidableEq, Repr

/-- The Streamlit session state the script reads and writes. -/
structure SessionState where
  projectSites : List (String × ProjectData)
  competitorVisibility : List (String × Bool)
  allCompetitors : List String
deriving DecidableEq, Repr

/-- Result of one script run: its outcome, the session state it leaves
behind, the network calls it made, the sleeps it inserted, and the cache
it leaves behind. -/
structure AppResult (π : Type) where
  outcome : AppOutcome
  session : SessionState
  netCalls : List IsoKey
  sleeps : Nat
  cache : List (IsoKey × π)
deriving Repr

/-- One top-to-bottom run of `streamlit_app.py`: API-key gate, file gate,
column validation, session-state initialization, checkbox pass, then the
two isochrone loops. -/
def runApp {π : Type} (net : IsoKey → Except String π)
    (cache : List (IsoKey × π)) (session : SessionState) (apiKey : String)
    (uploadedFile : Option ExcelFile) (driveTimeMinutes : Nat)
    (toggles : String → Bool → Bool) : AppResult π :=
  if apiKey = "" then ⟨AppOutcome.configWarning, session, [], 0, cache⟩
  else
    match uploadedFile with
    | none => ⟨AppOutcome.awaitingFile, session, [], 0, cache⟩
    | some f =>
      match validateColumns f with
      | some msg => ⟨AppOutcome.loadError msg, session, [], 0, cache⟩
      | none =>
        let sites := applyToggles toggles
          (initProjectSites session.projectSites f.projects)
        let vis := initCompetitorVisibility session.competitorVisibility
          f.companies
        let allComp := addCompetitors session.allCompetitors f.companies
        let result := renderPass net ⟨apiKey⟩ (driveTimeMinutes * 60) sites
          vis f.companies cache
        match result.2 with
        | some msg =>
          ⟨AppOutcome.retrievalError msg, ⟨sites, vis, allComp⟩,
            result.1.netCalls, result.1.sleeps, result.1.cache⟩
        | none =>
          ⟨AppOutcome.rendered, ⟨sites, vis, allComp⟩,
            result.1.netCalls, result.1.sleeps, result.1.cache⟩

/-- Claim C6: with no API key entered, the run stops at the configuration
warning: the session is untouched, no network call is made, no sleep
happens and the cache is unchanged — the routing client is never used. -/
theorem no_key_no_network {π : Type} (net : IsoKey → Except String π)
    (cache : List (IsoKey × π)) (session : SessionState)
    (uploadedFile : Option ExcelFile) (driveTimeMinutes : Nat)
    (toggles : String → Bool → Bool) :
    runApp net cache session "" uploadedFile driveTimeMinutes toggles =
      ⟨AppOutcome.configWarning, session, [], 0, cache⟩ := by
  unfold runApp
  simp

theorem firstMissing_spec {cols : List String} {c : String}
    (required : List String) (hc : c ∈ required) (hm : c ∉ cols) :
    ∃ c', firstMissing cols required = some c' ∧ c' ∈ required ∧ c' ∉ cols := by
  induction required with
  | nil => simp at hc
  | cons d rest ih =>
    by_cases hd : d ∈ cols
    · have hne : c ≠ d := fun h => hm (h ▸ hd)
      have hc' : c ∈ rest := by
        rcases List.mem_cons.mp hc with h | h
        · exact absurd h hne
        · exact h
      obtain ⟨c', h1, h2, h3⟩ := ih hc'
      exact ⟨c', by simp [firstMissing, if_pos hd, h1],
        List.mem_cons_of_mem _ h2, h3⟩
    · exact ⟨d, by simp [firstMissing, if_neg hd], List.mem_cons_self _ _, hd⟩

/-- Claim C5: when a required column of the "Companies" sheet is absent
from the uploaded workbook, the run stops at a load error whose message
names a missing required column (the first one in assert order, e.g.
`Latitude`), with no session change, no network call, no sleep and no
rendering. -/
theorem missing_column_halts_load {π : Type}
    (net : IsoKey → Except String π) (cache : List (IsoKey × π))
    (session : SessionState) (apiKey : String) (f : ExcelFile)
    (driveTimeMinutes : Nat) (toggles : String → Bool → Bool) (c : String)
    (hkey : apiKey ≠ "")
    (hc : c ∈ requiredCompanyCols)
    (hmiss : c ∉ f.companiesCols) :
    ∃ c', c' ∈ requiredCompanyCols ∧ c' ∉ f.companiesCols ∧
      runApp net cache session apiKey (some f) driveTimeMinutes toggles =
        ⟨AppOutcome.loadError
          ("\x27Companies\x27 sheet must include \x27" ++ c' ++ "\x27 column."),
          session, [], 0, cache⟩ := by
  obtain ⟨c', hfm, hc', hm'⟩ := firstMissing_spec requiredCompanyCols hc hmiss
  refine ⟨c', hc', hm', ?_⟩
  have hval : validateColumns f =
      some ("\x27Companies\x27 sheet must include \x27" ++ c' ++ "\x27 column.") := by
    unfold validateColumns
    rw [hfm]
  unfold runApp
  rw [if_neg hkey]
  simp [hval]

/-- Witness for `missing_column_halts_load` on a concrete workbook whose
"Companies" sheet lacks `Latitude`: the surfaced error names `Latitude`. -/
theorem missing_column_halts_load_witness :
    ∃ c', c' ∈ requiredCompanyCols ∧
      c' ∉ ["Company Location", "Longitude", "Company Name"] ∧
      runApp (fun _ => Except.ok (0 : Nat)) [] ⟨[], [], []⟩ "key"
          (some ⟨["Company Location", "Longitude", "Company Name"],
            ["Project Name", "Latitude", "Longitude"], [], []⟩) 10
          (fun _ b => b) =
        ⟨AppOutcome.loadError
          ("\x27Companies\x27 sheet must include \x27" ++ c' ++ "\x27 column."),
          ⟨[], [], []⟩, [], 0, []⟩ :=
  missing_column_halts_load (fun _ => Except.ok (0 : Nat)) [] ⟨[], [], []⟩
    "key" ⟨["Company Location", "Longitude", "Company Name"],
      ["Project Name", "Latitude", "Longitude"], [], []⟩ 10 (fun _ b => b)
    "Latitude" (by decide) (by decide) (by decide)

/-!
Color assignment: `companies_df['Company Name'].unique()` enumerates the
unique group names in first-occurrence order, and group `i` receives
`to_hex(tab20(i % tab20.N))`.
-/

/-- Hex values of matplotlib's `tab20` listed colormap (`colormap.N = 20`),
as produced by `mcolors.to_hex`. -/
def tab20 : List String :=
  ["#1f77b4", "#aec7e8", "#ff7f0e", "#ffbb78", "#2ca02c", "#98df8a",
   "#d62728", "#ff9896", "#9467bd", "#c5b0d5", "#8c564b", "#c49c94",
   "#e377c2", "#f7b6d2", "#7f7f7f", "#c7c7c7", "#bcbd22", "#dbdb8d",
   "#17becf", "#9edae5"]

/-- `companies_df['Company Name'].unique()`: unique values in
first-occurrence order. -/
def uniqueGroups (rows : List CompanyRow) : List String :=
  rows.foldl (fun acc r => if r.name ∈ acc then acc else acc ++ [r.name]) []

/-- The `company_colors` comprehension: the `i`-th unique name gets palette
color `i % 20`. -/
def companyColors (uniqueNames : List String) : List (String × String) :=
  uniqueNames.enum.map fun p => (p.2, tab20.getD (p.1 % tab20.length) "#000000")

/-- Claim C7: the color mapping is the deterministic function of the unique
group names in enumeration order given by `name_i ↦ tab20[i % 20]`: one
entry per unique group, the `i`-th entry pairing the `i`-th unique name
with palette color `i mod 20` — always a genuine palette color, so more
than 20 groups reuse colors instead of failing. -/
theorem color_assignment (rows : List CompanyRow) (i : Nat)
    (h : i < (uniqueGroups rows).length) :
    (companyColors (uniqueGroups rows)).length = (uniqueGroups rows).length ∧
    (companyColors (uniqueGroups rows)).getD i ("", "") =
      ((uniqueGroups rows).getD i "",
        tab20.getD (i % tab20.length) "#000000") ∧
    tab20.getD (i % tab20.length) "#000000" ∈ tab20 := by
  have hlen : (companyColors (uniqueGroups rows)).length =
      (uniqueGroups rows).length := by
    unfold companyColors
    rw [List.length_map, List.enum_length]
  have hmod : i % tab20.length < tab20.length :=
    Nat.mod_lt _ (by decide)
  refine ⟨hlen, ?_, ?_⟩
  · have hi : i < (companyColors (uniqueGroups rows)).length := hlen ▸ h
    rw [List.getD_eq_getElem _ _ hi, List.getD_eq_getElem _ _ h]
    unfold companyColors
    rw [List.getElem_map]
    rw [List.getElem_enum]
  · rw [List.getD_eq_getElem _ _ hmod]
    exact List.getElem_mem _

/-- Witness for `color_assignment` at a 21-group input: group 20 wraps
around to palette color 0. -/
theorem color_assignment_witness :
    (companyColors (uniqueGroups (["a", "b", "c", "d", "e", "f", "g", "h",
        "i", "j", "k", "l", "m", "n", "o", "p", "q", "r", "s", "t",
        "u"].map fun n => ⟨n, n, 0, 0⟩))).length =
      (uniqueGroups (["a", "b", "c", "d", "e", "f", "g", "h", "i", "j",
        "k", "l", "m", "n", "o", "p", "q", "r", "s", "t",
        "u"].map fun n => ⟨n, n, 0, 0⟩)).length ∧
    (companyColors (uniqueGroups (["a", "b", "c", "d", "e", "f", "g", "h",
        "i", "j", "k", "l", "m", "n", "o", "p", "q", "r", "s", "t",
        "u"].map fun n => ⟨n, n, 0, 0⟩))).getD 20 ("", "") =
      ((uniqueGroups (["a", "b", "c", "d", "e", "f", "g", "h", "i", "j",
        "k", "l", "m", "n", "o", "p", "q", "r", "s", "t",
        "u"].map fun n => ⟨n, n, 0, 0⟩)).getD 20 "",
        tab20.getD (20 % tab20.length) "#000000") ∧
    tab20.getD (20 % tab20.length) "#000000" ∈ tab20 :=
  color_assignment (["a", "b", "c", "d", "e", "f", "g", "h", "i", "j",
    "k", "l", "m", "n", "o", "p", "q", "r", "s", "t",
    "u"].map fun n => ⟨n, n, 0, 0⟩) 20 (by decide)

end ConcreteMap
